import Mathlib

/-!
Shallow embedding of `obs2nlm` (src/obs2nlm/obs2nlm.py), a tool that turns
an Obsidian vault into a single NotebookLM source document, together with
theorems checking the specification's claims against it.

The filesystem is abstracted as: a set of existing directories, an
association list of readable files (path to UTF-8 text), and a traversal
oracle `rglob` giving, for a vault directory, the discovered markdown notes
(vault-relative path and raw content) in filesystem traversal order.
Console output is modelled as a list of messages; the single written output
file as an optional (path, contents) pair.
-/

namespace Obs2nlm

/-- Python `str.isspace` characters as relevant to `str.split()` on the
ASCII range (space, tab, newline, carriage return, vertical tab, form feed). -/
def pyIsSpace (c : Char) : Bool :=
  c = ' ' || c = '\t' || c = '\n' || c = '\r' || c = '\x0b' || c = '\x0c'

/-- Count of maximal whitespace-free runs; `inTok` records whether the previous
character was part of a token. -/
def tokenCountAux : List Char → Bool → Nat
  | [], _ => 0
  | c :: rest, inTok =>
    if pyIsSpace c then tokenCountAux rest false
    else (if inTok then 0 else 1) + tokenCountAux rest true

/-- Embedding of Python `len(s.split())`: the number of whitespace-delimited
tokens of `s`. -/
def pyWordCount (s : String) : Nat :=
  tokenCountAux s.toList false

/-- Embedding of Python `x or y` for `x : Optional[str]`: `None` and the empty
string are falsy. Source lines 111-112. -/
def pyOr : Option String → String → String
  | none, d => d
  | some s, d => if s = "" then d else s

/-- The built-in instructional preamble (source lines 24-38, `PREAMBLE`). -/
def PREAMBLE : String :=
  "# AI NAVIGATION & BEHAVIOR RULES\n\n1. This file is a 'mega-source' containing an entire Obsidian vault.\n2. Every note is wrapped in 'BEGIN SOURCE: [path]' and 'END SOURCE: [path]'. Always cite the [path] when answering.\n3. At the end of the file is a table of contents, marked with 'BEGIN TABLE OF CONTENT' and 'END TABLE OF CONTENT'. Use the table of contents to help build up relationships and to help with searching. If I ask for a 'summary of the vault', refer to the table of contents.\n4. Sources with a [path] that ends in the format YYYY-MM-DD.md are going to be daily note files; parse the name as a date and refer to it where possible.\n\n# VAULT CONVENTIONS\n\n- [[Text]] like this is an internal link to related information. If I ask about a linked topic, search for the 'BEGIN SOURCE' header that matches that link.\n- [[Text|and more text]] is an internal link with an alias after the `|` character. Treat the text and the alias as the same linked concept.\n- YAML frontmatter (between --- near the start of a source) contains valid metadata; prioritise it for dating and tagging.\n- Text marked with '> [!TYPE]' (e.g., INFO, TODO, WARNING) represents categorized highlights. Treat these as high-signal data.\n"

/-- The NotebookLM word limit (source line 41, `WORD_LIMIT`). -/
def WORD_LIMIT : Nat := 500000

/-- The default root to search for vaults (source lines 14-16,
`DEFAULT_VAULT_ROOT`); `Path.expanduser` is abstracted, the constant stands
for the one fixed expanded root directory string. -/
def DEFAULT_VAULT_ROOT : String :=
  "~/Library/Mobile Documents/iCloud~md~obsidian/Documents"

/-- POSIX `Path` join `root / p`: an absolute right operand (leading slash)
replaces the root. -/
def pathJoin (root p : String) : String :=
  if p.toList.head? = some '/' then p else root ++ "/" ++ p

/-- A markdown note discovered inside the vault: its vault-relative path
(`vault_file.relative_to(vault)`) and its raw text content
(`vault_file.read_text(encoding="utf-8")`). -/
structure Note where
  relPath : String
  content : String
deriving DecidableEq, Repr

/-- The command-line arguments (source `get_args`): `--vault` is required, the
other three optional. -/
structure Args where
  vault : String
  source : Option String
  instructions : Option String
  additional_instructions : Option String
deriving DecidableEq, Repr

/-- The abstracted filesystem: existing directories, readable files (path to
UTF-8 text), and the `Path.rglob("*.md")` traversal oracle giving, for a vault
directory, the discovered notes in filesystem traversal order. -/
structure FS where
  dirs : List String
  files : List (String × String)
  rglob : String → List Note

/-- Embedding of `Path(p).is_dir()` over the abstract filesystem. -/
def FS.isDir (fs : FS) (p : String) : Bool :=
  fs.dirs.contains p

/-- Embedding of reading file `p`: `some` content when `Path(p).is_file()`. -/
def lookupFile (files : List (String × String)) (p : String) : Option String :=
  (files.find? (fun f => f.1 == p)).map (fun f => f.2)

/-- A console message printed by the program. The percentage line's numeric
text is produced by IEEE-754 double formatting in the source
(`f"{(count / WORD_LIMIT) * 100:.1f}% of the limit"`); the embedding records
that branch together with its input count and leaves the float rendering
abstract (see `Msg.renderText`). -/
inductive Msg where
  | converting (vault source : String)
  | vaultNotFound (vault : String)
  | estWordCount (count : Nat)
  | truncation
  | percent (count : Nat)
deriving DecidableEq, Repr

/-- The result of one run: process exit code, the output file written
(`none` when the process exited before the output file was opened), and the
console messages in print order. -/
structure RunResult where
  exitCode : Nat
  written : Option (String × String)
  printed : List Msg
deriving DecidableEq, Repr

/-- Embedding of `resolve_vault` (source lines 46-60): the vault itself when it
is a directory, else the vault joined under the default root when that is a
directory, else the fatal "Can't find an Obsidian vault" condition. -/
def resolve_vault (fs : FS) (vault : String) : Except Msg String :=
  if fs.isDir vault then Except.ok vault
  else if fs.isDir (pathJoin DEFAULT_VAULT_ROOT vault) then
    Except.ok (pathJoin DEFAULT_VAULT_ROOT vault)
  else Except.error (Msg.vaultNotFound vault)

/-- Decomposition of a character list at every occurrence of the separator
`sep`; the result always has one more entry than the list has separators. -/
def splitOnChar (sep : Char) : List Char → List (List Char)
  | [] => [[]]
  | c :: rest =>
    if c = sep then [] :: splitOnChar sep rest
    else
      match splitOnChar sep rest with
      | [] => [[c]]
      | l :: ls => (c :: l) :: ls

/-- Index of the last '.' in a list of characters (Python `str.rfind('.')`,
as `none` instead of -1). -/
def lastDotIdx : List Char → Option Nat
  | [] => none
  | c :: rest =>
    match lastDotIdx rest with
    | some i => some (i + 1)
    | none => if c = '.' then some (0 : Nat) else none

/-- The final path component of `p`: Python `PurePosixPath(p).name`. Empty and
single-dot components are dropped by `Path` normalization. -/
def pyName (p : String) : String :=
  String.mk (((splitOnChar '/' p.toList).filter
    (fun s => !(s.isEmpty) && !(s == ['.']))).getLastD [])

/-- Length of Python `PurePosixPath(name).suffix` for a bare name: the last
extension including its dot, present only when the last dot sits strictly
inside the name (`0 < i < len(name) - 1`). -/
def pySuffixLen (name : String) : Nat :=
  match lastDotIdx name.toList with
  | some i => if 0 < i ∧ i + 1 < name.length then name.length - i else 0
  | none => 0

/-- Embedding of `Path(p).stem`: the final component without its suffix. -/
def pyStem (p : String) : String :=
  String.mk ((pyName p).toList.take ((pyName p).length - pySuffixLen (pyName p)))

/-- Embedding of `Path(p).with_suffix(".md")` on a single-component path with
a non-empty name: the name with its suffix (if any) replaced by `.md`.
Python raises `ValueError` when the name is empty; `resolve_source` models
that check explicitly and never uses this value there. -/
def pyWithSuffixMd (p : String) : String :=
  String.mk ((pyName p).toList.take ((pyName p).length - pySuffixLen (pyName p))) ++ ".md"

/-- Embedding of `resolve_source` (source lines 64-74):
`args.source or Path(args.vault.stem).with_suffix(".md")`. A supplied `Path`
is always truthy in Python, so an explicit path is used verbatim; without
one, `with_suffix` raises `ValueError` when the stem has an empty name
(vault references such as `.` or `/`), modelled as `none`. -/
def resolve_source (args : Args) : Option String :=
  match args.source with
  | some s => some s
  | none =>
    if pyName (pyStem args.vault) = "" then none
    else some (pyWithSuffixMd (pyStem args.vault))

/-- Embedding of `get_instructions` (source lines 78-95): `None` stays `None`;
a string naming an existing file is replaced by that file's content; any other
string passes through unchanged. -/
def get_instructions (files : List (String × String)) : Option String → Option String
  | none => none
  | some ins =>
    match lookupFile files ins with
    | some content => some content
    | none => some ins

/-- The effective preamble (source line 111):
`get_instructions(args.instructions) or PREAMBLE`. -/
def effPreamble (fs : FS) (args : Args) : String :=
  pyOr (get_instructions fs.files args.instructions) PREAMBLE

/-- The effective additional-instructions supplement (source line 112):
`get_instructions(args.additional_instructions) or ""`. -/
def effExtra (fs : FS) (args : Args) : String :=
  pyOr (get_instructions fs.files args.additional_instructions) ""

/-- The text written for one note (source lines 121-126): begin marker, blank
line, raw content, blank line, end marker, blank line. -/
def noteBlock (n : Note) : String :=
  "BEGIN SOURCE: " ++ n.relPath ++ "\n\n" ++ n.content ++ "\n\nEND SOURCE: " ++ n.relPath ++ "\n\n"

/-- Accumulators of the `for vault_file in vault.rglob("*.md")` loop (source
lines 119-126): the text written so far, the running word count added by note
bodies, and the `table_of_content` list in traversal order. -/
structure WalkResult where
  text : String
  count : Nat
  toc : List String
deriving DecidableEq, Repr

/-- The note-writing loop (source lines 119-126), processing the discovered
notes in traversal order. -/
def walk : List Note → WalkResult
  | [] => { text := "", count := 0, toc := [] }
  | n :: rest =>
    let w := walk rest
    { text := noteBlock n ++ w.text,
      count := pyWordCount n.content + w.count,
      toc := n.relPath :: w.toc }

/-- Lexicographic comparison of character lists by code point, the order
Python string comparison uses: a prefix is smaller, otherwise the first
differing character decides. -/
def strLeb : List Char → List Char → Bool
  | [], _ => true
  | _ :: _, [] => false
  | a :: as, b :: bs => if a = b then strLeb as bs else decide (a < b)

/-- Lexicographic order on strings (proved below to agree with the canonical
string order `≤`); Python compares plain strings this way, by code point. -/
def strLe (a b : String) : Prop :=
  strLeb a.toList b.toList = true

instance : DecidableRel strLe :=
  fun a b => inferInstanceAs (Decidable (strLeb a.toList b.toList = true))

/-- Strict lexicographic comparison of character lists by code point: the
Python `<` on the component strings of a path. -/
def strLtb : List Char → List Char → Bool
  | [], [] => false
  | [], _ :: _ => true
  | _ :: _, [] => false
  | a :: as, b :: bs => if a = b then strLtb as bs else decide (a < b)

/-- The component list of a relative path string, as pathlib's path
comparison sees it (`_cparts`, the path string split on the separator). -/
def pathParts (s : String) : List (List Char) :=
  splitOnChar '/' s.toList

/-- Lexicographic comparison of component lists, components compared as
strings: Python's list comparison on `_cparts`, as a reflexive order. -/
def partsLeb : List (List Char) → List (List Char) → Bool
  | [], _ => true
  | _ :: _, [] => false
  | a :: as, b :: bs => if a = b then partsLeb as bs else strLtb a b

/-- The order `sorted` uses on the collected `Path` objects (pathlib
`PurePath.__lt__` compares the component lists of the paths, not the raw
path strings). -/
def pathLe (a b : String) : Prop :=
  partsLeb (pathParts a) (pathParts b) = true

instance : DecidableRel pathLe :=
  fun a b => inferInstanceAs (Decidable (partsLeb (pathParts a) (pathParts b) = true))

/-- Rejoin on the separator: the left inverse of `splitOnChar`, used to show
that a path is determined by its component list. -/
def joinSep (sep : Char) : List (List Char) → List Char
  | [] => []
  | [l] => l
  | l :: l' :: ls => l ++ sep :: joinSep sep (l' :: ls)

/-- The table-of-contents entries as written (source line 128):
`sorted(table_of_content)` on the collected `Path` objects, which pathlib
orders by comparing their component lists (components compared as strings),
not the raw path strings. -/
def tocEntries (notes : List Note) : List String :=
  List.insertionSort pathLe (walk notes).toc

/-- The bullet lines of the table of contents (source lines 128-129): the
`for entry in sorted(table_of_content)` loop writes one `* entry` line per
entry, in order. -/
def bulletList : List String → String
  | [] => ""
  | e :: rest => "* " ++ e ++ "\n" ++ bulletList rest

/-- The table-of-contents section (source lines 127-130): begin marker, one
bullet line per sorted entry, end marker. -/
def tocSection (notes : List Note) : String :=
  "\n\nBEGIN TABLE OF CONTENT\n\n"
    ++ bulletList (tocEntries notes)
    ++ "\n\nEND TABLE OF CONTENT\n\n"

/-- The full output document (source lines 114-130): preamble, optional
ADDITIONAL RULES block (written only when the supplement is truthy), the fixed
separator, the note blocks in traversal order, and the sorted table of
contents. -/
def make_document (preamble extra : String) (notes : List Note) : String :=
  preamble
    ++ (if extra = "" then "" else "\n\n# ADDITIONAL RULES\n\n" ++ extra)
    ++ "\n\n---\n\n"
    ++ (walk notes).text
    ++ tocSection notes

/-- The estimated word count as accumulated by the source (lines 113, 123,
133): the token count of preamble plus supplement, plus each note body's token
count, plus 7 per table-of-contents entry. -/
def estimatedCount (fs : FS) (args : Args) (vault : String) : Nat :=
  pyWordCount (effPreamble fs args ++ effExtra fs args)
    + (walk (fs.rglob vault)).count + (walk (fs.rglob vault)).toc.length * 7

/-- Thousands grouping: insert a comma after every third character of the
reversed digit string; `k` counts characters left before the next comma. -/
def commaGroupAux : Nat → List Char → List Char
  | _, [] => []
  | 0, c :: rest => ',' :: c :: commaGroupAux 2 rest
  | k + 1, c :: rest => c :: commaGroupAux k rest

/-- Embedding of Python `f"{n:,}"` for a natural number: decimal digits with a
comma between every group of three. -/
def commaFormat (n : Nat) : String :=
  String.mk (commaGroupAux 3 (toString n).toList.reverse).reverse

/-- The exact console text of a message, when the embedding renders it: the
percentage line's number is produced by IEEE-754 double formatting in the
source, which the embedding does not model, so that message renders to
`none`. -/
def Msg.renderText : Msg → Option String
  | Msg.converting v s => some ("Converting " ++ v ++ " to " ++ s)
  | Msg.vaultNotFound v => some ("Can't find an Obsidian vault named '" ++ v ++ "'")
  | Msg.estWordCount c => some ("Estimated word count: " ++ commaFormat c)
  | Msg.truncation => some ("NotebookLM will truncate this source!")
  | Msg.percent _ => none

/-- Embedding of `make_source` (source lines 99-138): resolve the vault
(exiting with status 1 before the output file is opened when that fails),
resolve the output path (an uncaught `ValueError` from `with_suffix` likewise
kills the process with status 1 before any message is printed to stdout or
any file is opened), print the start line, write the document, then print
the estimated word count and either the truncation warning or the
percentage-of-limit line. -/
def make_source (fs : FS) (args : Args) : RunResult :=
  match resolve_vault fs args.vault with
  | Except.error m => { exitCode := 1, written := none, printed := [m] }
  | Except.ok vault =>
    match resolve_source args with
    | none => { exitCode := 1, written := none, printed := [] }
    | some source =>
      let ewc := estimatedCount fs args vault
      { exitCode := 0,
        written := some (source, make_document (effPreamble fs args) (effExtra fs args) (fs.rglob vault)),
        printed := [Msg.converting vault source, Msg.estWordCount ewc]
          ++ (if WORD_LIMIT < ewc then [Msg.truncation] else [Msg.percent ewc]) }

/-- Decomposition of a character list into its newline-separated lines; the
result always has one more entry than the list has newlines. -/
def splitLines (s : List Char) : List (List Char) :=
  splitOnChar '\n' s

/-- How many lines of the string `s` are exactly the character list `m`. -/
def countLines (m : List Char) (s : String) : Nat :=
  (splitLines s.toList).count m

/-- The begin-marker line written for relative path `r`. -/
def beginL (r : String) : List Char :=
  ("BEGIN SOURCE: " ++ r).toList

/-- The end-marker line written for relative path `r`. -/
def endL (r : String) : List Char :=
  ("END SOURCE: " ++ r).toList

/-- The ADDITIONAL RULES heading line. -/
def adHeadL : List Char :=
  ("# ADDITIONAL RULES").toList

/-- The separator line between the preamble part and the note blocks. -/
def dashL : List Char :=
  ("---").toList

/-- The line opening the table-of-contents section. -/
def btocL : List Char :=
  ("BEGIN TABLE OF CONTENT").toList

/-- The line closing the table-of-contents section. -/
def etocL : List Char :=
  ("END TABLE OF CONTENT").toList

/-- The bullet line written for table-of-contents entry `s`. -/
def bulletLine (s : String) : List Char :=
  ("* " ++ s).toList

/-- The lines contributed to the output document by one note's block: begin
marker, blank, the content's own lines, blank, end marker, blank. -/
def blockLines (n : Note) : List (List Char) :=
  [beginL n.relPath, []] ++ splitLines n.content.toList ++ [[], endL n.relPath, []]

theorem splitOnChar_ne_nil (sep : Char) (s : List Char) : splitOnChar sep s ≠ [] := by
  induction s with
  | nil => simp [splitOnChar]
  | cons c rest ih =>
    simp only [splitOnChar]
    split
    · simp
    · split
      · simp
      · simp

theorem splitOnChar_append (sep : Char) (a b : List Char) :
    splitOnChar sep (a ++ sep :: b) = splitOnChar sep a ++ splitOnChar sep b := by
  induction a with
  | nil => simp [splitOnChar]
  | cons c rest ih =>
    by_cases hc : c = sep
    · subst hc
      simp [splitOnChar, ih]
    · rcases hsp : splitOnChar sep rest with _ | ⟨l, ls⟩
      · exact absurd hsp (splitOnChar_ne_nil sep rest)
      · simp [splitOnChar, hc, ih, hsp]

theorem splitOnChar_not_mem (sep : Char) (s : List Char) (h : sep ∉ s) :
    splitOnChar sep s = [s] := by
  induction s with
  | nil => rfl
  | cons c rest ih =>
    have hc : ¬ c = sep := fun hce => h (hce ▸ List.mem_cons_self c rest)
    have hr := ih (fun hm => h (List.mem_cons_of_mem c hm))
    simp [splitOnChar, hc, hr]

theorem splitLines_append (a b : List Char) :
    splitLines (a ++ '\n' :: b) = splitLines a ++ splitLines b :=
  splitOnChar_append '\n' a b

theorem splitLines_nl (b : List Char) : splitLines ('\n' :: b) = [] :: splitLines b := by
  simp [splitLines, splitOnChar]

theorem splitLines_chunk (A : List Char) (hA : '\n' ∉ A) (B : List Char) :
    splitLines (A ++ '\n' :: B) = A :: splitLines B := by
  rw [splitLines_append]
  rw [show splitLines A = splitOnChar '\n' A from rfl, splitOnChar_not_mem '\n' A hA]
  rfl

theorem walk_toc (notes : List Note) : (walk notes).toc = notes.map Note.relPath := by
  induction notes with
  | nil => rfl
  | cons n ns ih => simp [walk, ih]

theorem walk_count (notes : List Note) :
    (walk notes).count = (notes.map (fun n => pyWordCount n.content)).sum := by
  induction notes with
  | nil => rfl
  | cons n ns ih => simp [walk, ih]

theorem beginL_eq (r : String) :
    beginL r =
      'B' :: 'E' :: 'G' :: 'I' :: 'N' :: ' ' :: 'S' :: 'O' :: 'U' :: 'R' :: 'C' :: 'E'
        :: ':' :: ' ' :: r.toList :=
  rfl

theorem endL_eq (r : String) :
    endL r =
      'E' :: 'N' :: 'D' :: ' ' :: 'S' :: 'O' :: 'U' :: 'R' :: 'C' :: 'E' :: ':' :: ' '
        :: r.toList :=
  rfl

theorem beginL_inj (r q : String) : beginL r = beginL q ↔ r = q := by
  constructor
  · intro h
    rw [beginL_eq, beginL_eq] at h
    repeat injection h with _ h
    exact String.toList_inj.mp h
  · intro h
    rw [h]

theorem endL_inj (r q : String) : endL r = endL q ↔ r = q := by
  constructor
  · intro h
    rw [endL_eq, endL_eq] at h
    repeat injection h with _ h
    exact String.toList_inj.mp h
  · intro h
    rw [h]

theorem nl_not_mem_beginL (r : String) (h : '\n' ∉ r.toList) : '\n' ∉ beginL r := by
  intro hm
  have hm' : '\n' ∈ ("BEGIN SOURCE: ").toList ++ r.toList := hm
  rcases List.mem_append.mp hm' with h1 | h1
  · exact absurd h1 (by decide)
  · exact h h1

theorem nl_not_mem_endL (r : String) (h : '\n' ∉ r.toList) : '\n' ∉ endL r := by
  intro hm
  have hm' : '\n' ∈ ("END SOURCE: ").toList ++ r.toList := hm
  rcases List.mem_append.mp hm' with h1 | h1
  · exact absurd h1 (by decide)
  · exact h h1

theorem nl_not_mem_bulletLine (s : String) (h : '\n' ∉ s.toList) : '\n' ∉ bulletLine s := by
  intro hm
  have hm' : '\n' ∈ ("* ").toList ++ s.toList := hm
  rcases List.mem_append.mp hm' with h1 | h1
  · exact absurd h1 (by decide)
  · exact h h1

theorem ne_of_head_ne {a b : Char} {as bs : List Char} (h : a ≠ b) : a :: as ≠ b :: bs := by
  intro he
  injection he with h1 _
  exact h h1

theorem beginL_ne_nil (q : String) : beginL q ≠ [] := by
  rw [beginL_eq]
  exact List.cons_ne_nil _ _

theorem endL_ne_nil (q : String) : endL q ≠ [] := by
  rw [endL_eq]
  exact List.cons_ne_nil _ _

theorem dash_ne_beginL (q : String) : dashL ≠ beginL q := by
  rw [beginL_eq]
  exact ne_of_head_ne (by decide)

theorem dash_ne_endL (q : String) : dashL ≠ endL q := by
  rw [endL_eq]
  exact ne_of_head_ne (by decide)

theorem adHead_ne_beginL (q : String) : adHeadL ≠ beginL q := by
  rw [beginL_eq]
  exact ne_of_head_ne (by decide)

theorem adHead_ne_endL (q : String) : adHeadL ≠ endL q := by
  rw [endL_eq]
  exact ne_of_head_ne (by decide)

theorem etoc_ne_beginL (q : String) : etocL ≠ beginL q := by
  rw [beginL_eq]
  exact ne_of_head_ne (by decide)

theorem btoc_ne_endL (q : String) : btocL ≠ endL q := by
  rw [endL_eq]
  exact ne_of_head_ne (by decide)

theorem endL_ne_beginL (r q : String) : endL r ≠ beginL q := by
  rw [beginL_eq, endL_eq]
  exact ne_of_head_ne (by decide)

theorem beginL_ne_endL (r q : String) : beginL r ≠ endL q := by
  rw [beginL_eq, endL_eq]
  exact ne_of_head_ne (by decide)

theorem bullet_ne_beginL (s q : String) : bulletLine s ≠ beginL q := by
  rw [beginL_eq]
  exact ne_of_head_ne (by decide)

theorem bullet_ne_endL (s q : String) : bulletLine s ≠ endL q := by
  rw [endL_eq]
  exact ne_of_head_ne (by decide)

theorem bullet_ne_adHead (s : String) : bulletLine s ≠ adHeadL := by
  exact ne_of_head_ne (by decide)

theorem beginL_ne_adHead (q : String) : beginL q ≠ adHeadL := by
  rw [beginL_eq]
  exact ne_of_head_ne (by decide)

theorem endL_ne_adHead (q : String) : endL q ≠ adHeadL := by
  rw [endL_eq]
  exact ne_of_head_ne (by decide)

theorem btoc_ne_beginL (q : String) : btocL ≠ beginL q := by
  rw [beginL_eq]
  intro h
  have h6 := congrArg (fun l => l.getD 6 ' ') h
  have h6' : ('T' : Char) = 'S' := h6
  exact absurd h6' (by decide)

theorem etoc_ne_endL (q : String) : etocL ≠ endL q := by
  rw [endL_eq]
  intro h
  have h4 := congrArg (fun l => l.getD 4 ' ') h
  have h4' : ('T' : Char) = 'S' := h4
  exact absurd h4' (by decide)

theorem strLeb_iff_not_lex (l₁ : List Char) :
    ∀ l₂, strLeb l₁ l₂ = true ↔ ¬ List.Lex (fun a b => a < b) l₂ l₁ := by
  induction l₁ with
  | nil =>
    intro l₂
    exact iff_of_true rfl (List.Lex.not_nil_right _ l₂)
  | cons a as ih =>
    intro l₂
    cases l₂ with
    | nil =>
      exact iff_of_false (by simp [strLeb]) (fun hn => hn (List.Lex.nil))
    | cons b bs =>
      by_cases hab : a = b
      · subst hab
        have hco : List.Lex (fun a b => a < b) (a :: bs) (a :: as) ↔
            List.Lex (fun a b => a < b) bs as := List.Lex.cons_iff
        rw [show strLeb (a :: as) (a :: bs) = strLeb as bs by simp [strLeb], ih bs,
          not_iff_not, hco]
      · rw [show strLeb (a :: as) (b :: bs) = decide (a < b) by simp [strLeb, hab],
          decide_eq_true_iff]
        constructor
        · intro hlt hlex
          cases hlex with
          | rel h => exact absurd (lt_trans hlt h) (lt_irrefl a)
          | cons h => exact hab rfl
        · intro hnl
          rcases lt_trichotomy a b with h | h | h
          · exact h
          · exact absurd h hab
          · exact absurd (List.Lex.rel h) hnl

theorem strLe_iff (a b : String) : strLe a b ↔ a ≤ b := by
  rw [String.le_iff_toList_le, ← not_lt]
  exact strLeb_iff_not_lex a.toList b.toList

theorem strLtb_iff_lt (x : List Char) : ∀ y, strLtb x y = true ↔ x < y := by
  induction x with
  | nil =>
    intro y
    cases y with
    | nil => exact iff_of_false (by simp [strLtb]) (lt_irrefl ([] : List Char))
    | cons b bs => exact iff_of_true rfl (List.nil_lt_cons b bs)
  | cons a as ih =>
    intro y
    cases y with
    | nil =>
      exact iff_of_false (by simp [strLtb])
        (fun h => List.Lex.not_nil_right (fun c d => c < d) (a :: as) h)
    | cons b bs =>
      by_cases hab : a = b
      · subst hab
        have hco : ((a :: as : List Char) < a :: bs) ↔ ((as : List Char) < bs) :=
          List.Lex.cons_iff
        rw [show strLtb (a :: as) (a :: bs) = strLtb as bs by simp [strLtb], ih bs, hco]
      · rw [show strLtb (a :: as) (b :: bs) = decide (a < b) by simp [strLtb, hab],
          decide_eq_true_iff]
        constructor
        · intro h
          exact List.Lex.rel h
        · intro h
          cases h with
          | rel h1 => exact h1
          | cons h1 => exact absurd rfl hab

theorem partsLeb_iff_not_lex (x : List (List Char)) :
    ∀ y, partsLeb x y = true ↔ ¬ List.Lex (fun a b : List Char => a < b) y x := by
  induction x with
  | nil =>
    intro y
    exact iff_of_true rfl (List.Lex.not_nil_right _ y)
  | cons a as ih =>
    intro y
    cases y with
    | nil =>
      exact iff_of_false (by simp [partsLeb]) (fun hn => hn (List.Lex.nil))
    | cons b bs =>
      by_cases hab : a = b
      · subst hab
        have hco : List.Lex (fun a b : List Char => a < b) (a :: bs) (a :: as) ↔
            List.Lex (fun a b : List Char => a < b) bs as := List.Lex.cons_iff
        rw [show partsLeb (a :: as) (a :: bs) = partsLeb as bs by simp [partsLeb], ih bs,
          not_iff_not, hco]
      · rw [show partsLeb (a :: as) (b :: bs) = strLtb a b by simp [partsLeb, hab],
          strLtb_iff_lt a b]
        constructor
        · intro hlt hlex
          cases hlex with
          | rel h => exact absurd (lt_trans hlt h) (lt_irrefl a)
          | cons h => exact hab rfl
        · intro hnl
          rcases lt_trichotomy a b with h | h | h
          · exact h
          · exact absurd h hab
          · exact absurd (List.Lex.rel h) hnl

theorem pathLe_iff (a b : String) : pathLe a b ↔ pathParts a ≤ pathParts b := by
  rw [← not_lt]
  exact partsLeb_iff_not_lex (pathParts a) (pathParts b)

theorem joinSep_splitOnChar (sep : Char) (s : List Char) :
    joinSep sep (splitOnChar sep s) = s := by
  induction s with
  | nil => rfl
  | cons c rest ih =>
    rcases hsp : splitOnChar sep rest with _ | ⟨l, ls⟩
    · exact absurd hsp (splitOnChar_ne_nil sep rest)
    · by_cases hc : c = sep
      · rw [show splitOnChar sep (c :: rest) = [] :: splitOnChar sep rest by
          simp [splitOnChar, hc], hsp,
          show joinSep sep ([] :: l :: ls) = [] ++ sep :: joinSep sep (l :: ls) from rfl,
          ← hsp, ih, List.nil_append, hc]
      · rw [show splitOnChar sep (c :: rest) = (c :: l) :: ls by simp [splitOnChar, hc, hsp]]
        cases ls with
        | nil =>
          have hrest : l = rest := by
            have h := ih
            rw [hsp] at h
            exact h
          rw [show joinSep sep [c :: l] = c :: l from rfl, hrest]
        | cons l' ls' =>
          have hrest : l ++ sep :: joinSep sep (l' :: ls') = rest := by
            have h := ih
            rw [hsp] at h
            exact h
          rw [show joinSep sep ((c :: l) :: l' :: ls') =
            (c :: l) ++ sep :: joinSep sep (l' :: ls') from rfl,
            show ((c :: l) ++ sep :: joinSep sep (l' :: ls') : List Char) =
              c :: (l ++ sep :: joinSep sep (l' :: ls')) from rfl, hrest]

theorem pathParts_inj {a b : String} (h : pathParts a = pathParts b) : a = b := by
  have h2 := congrArg (joinSep '/') h
  rw [show joinSep '/' (pathParts a) = a.toList from joinSep_splitOnChar '/' a.toList,
    show joinSep '/' (pathParts b) = b.toList from joinSep_splitOnChar '/' b.toList] at h2
  exact String.toList_inj.mp h2

theorem pathLe_total : ∀ a b : String, pathLe a b ∨ pathLe b a := by
  intro a b
  rcases le_total (pathParts a) (pathParts b) with h | h
  · exact Or.inl ((pathLe_iff a b).mpr h)
  · exact Or.inr ((pathLe_iff b a).mpr h)

theorem pathLe_trans : ∀ a b c : String, pathLe a b → pathLe b c → pathLe a c := by
  intro a b c h₁ h₂
  exact (pathLe_iff a c).mpr (le_trans ((pathLe_iff a b).mp h₁) ((pathLe_iff b c).mp h₂))

theorem pathLe_antisymm : ∀ a b : String, pathLe a b → pathLe b a → a = b := by
  intro a b h₁ h₂
  exact pathParts_inj (le_antisymm ((pathLe_iff a b).mp h₁) ((pathLe_iff b a).mp h₂))

theorem toList_append (s t : String) : (s ++ t).toList = s.toList ++ t.toList :=
  rfl

theorem noteBlock_lines (n : Note) (rest : List Char) (hn : '\n' ∉ n.relPath.toList) :
    splitLines ((noteBlock n).toList ++ rest) = blockLines n ++ splitLines rest := by
  have h1 : (noteBlock n).toList ++ rest =
      beginL n.relPath ++ '\n' :: ('\n' :: (n.content.toList ++ '\n' :: ('\n' ::
        (endL n.relPath ++ '\n' :: ('\n' :: rest))))) := by
    simp [noteBlock, beginL, endL, toList_append]
  rw [h1, splitLines_chunk _ (nl_not_mem_beginL _ hn), splitLines_nl, splitLines_append,
    splitLines_nl, splitLines_chunk _ (nl_not_mem_endL _ hn), splitLines_nl, blockLines]
  simp

theorem walk_text_lines (notes : List Note) (W : List Char)
    (hrel : ∀ m ∈ notes, '\n' ∉ m.relPath.toList) :
    splitLines ((walk notes).text.toList ++ W) =
      notes.flatMap blockLines ++ splitLines W := by
  induction notes with
  | nil => simp [walk]
  | cons n ns ih =>
    have h1 : (walk (n :: ns)).text.toList ++ W =
        (noteBlock n).toList ++ ((walk ns).text.toList ++ W) := by
      simp [walk, toList_append]
    rw [h1, noteBlock_lines n _ (hrel n (List.mem_cons_self n ns)),
      ih (fun m hm => hrel m (List.mem_cons_of_mem n hm))]
    simp

theorem bulletList_lines (es : List String) (W : List Char)
    (h : ∀ e ∈ es, '\n' ∉ e.toList) :
    splitLines ((bulletList es).toList ++ W) = es.map bulletLine ++ splitLines W := by
  induction es with
  | nil => simp [bulletList]
  | cons e es ih =>
    have h1 : (bulletList (e :: es)).toList ++ W =
        bulletLine e ++ '\n' :: ((bulletList es).toList ++ W) := by
      simp [bulletList, bulletLine, toList_append]
    rw [h1, splitLines_chunk _ (nl_not_mem_bulletLine e (h e (List.mem_cons_self e es))),
      ih (fun x hx => h x (List.mem_cons_of_mem e hx))]
    simp

theorem tocSection_lines (notes : List Note)
    (hent : ∀ e ∈ tocEntries notes, '\n' ∉ e.toList) :
    splitLines (tocSection notes).toList =
      [[], [], btocL, []] ++ ((tocEntries notes).map bulletLine ++ [[], [], etocL, [], []]) := by
  have h1 : (tocSection notes).toList =
      '\n' :: ('\n' :: (btocL ++ '\n' :: ('\n' :: ((bulletList (tocEntries notes)).toList ++
        ('\n' :: ('\n' :: (etocL ++ '\n' :: ('\n' :: ([] : List Char))))))))) := by
    simp [tocSection, btocL, etocL, toList_append]
  rw [h1, splitLines_nl, splitLines_nl, splitLines_chunk _ (by decide), splitLines_nl,
    bulletList_lines _ _ hent, splitLines_nl, splitLines_nl,
    splitLines_chunk _ (by decide), splitLines_nl]
  simp [splitLines, splitOnChar]

theorem toc_entries_no_nl (notes : List Note)
    (hrel : ∀ m ∈ notes, '\n' ∉ m.relPath.toList) :
    ∀ en ∈ tocEntries notes, '\n' ∉ en.toList := by
  intro en hen
  have hmem : en ∈ (walk notes).toc :=
    (List.perm_insertionSort pathLe (walk notes).toc).mem_iff.mp hen
  rw [walk_toc] at hmem
  obtain ⟨m, hm, hme⟩ := List.mem_map.mp hmem
  exact hme ▸ hrel m hm

theorem make_document_lines (p e : String) (notes : List Note)
    (hrel : ∀ m ∈ notes, '\n' ∉ m.relPath.toList) :
    splitLines (make_document p e notes).toList =
      splitLines p.toList
      ++ ((if e = "" then [] else [[], adHeadL, []] ++ splitLines e.toList)
      ++ ([[], dashL, []]
      ++ (notes.flatMap blockLines
      ++ ([[], [], btocL, []]
      ++ ((tocEntries notes).map bulletLine
      ++ [[], [], etocL, [], []]))))) := by
  have hent := toc_entries_no_nl notes hrel
  by_cases he : e = ""
  · have h1 : (make_document p e notes).toList =
        p.toList ++ '\n' :: ('\n' :: (dashL ++ '\n' :: ('\n' ::
          ((walk notes).text.toList ++ (tocSection notes).toList)))) := by
      simp [make_document, he, dashL, toList_append]
    rw [h1, splitLines_append, splitLines_nl, splitLines_chunk _ (by decide), splitLines_nl,
      walk_text_lines notes _ hrel, tocSection_lines notes hent]
    simp [he]
  · have h1 : (make_document p e notes).toList =
        p.toList ++ '\n' :: ('\n' :: (adHeadL ++ '\n' :: ('\n' :: (e.toList ++ '\n' :: ('\n' ::
          (dashL ++ '\n' :: ('\n' ::
            ((walk notes).text.toList ++ (tocSection notes).toList)))))))) := by
      simp [make_document, he, adHeadL, dashL, toList_append]
    rw [h1, splitLines_append, splitLines_nl, splitLines_chunk _ (by decide), splitLines_nl,
      splitLines_append, splitLines_nl, splitLines_chunk _ (by decide), splitLines_nl,
      walk_text_lines notes _ hrel, tocSection_lines notes hent]
    simp [he]

theorem walk_text_infix (notes : List Note) (n : Note) (h : n ∈ notes) :
    ∃ u v, (walk notes).text.toList = u ++ ((noteBlock n).toList ++ v) := by
  induction notes with
  | nil => cases h
  | cons m ms ih =>
    rcases List.mem_cons.mp h with he | hm
    · refine ⟨[], (walk ms).text.toList, ?_⟩
      rw [show (walk (m :: ms)).text = noteBlock m ++ (walk ms).text from rfl, toList_append,
        he, List.nil_append]
    · obtain ⟨u, v, huv⟩ := ih hm
      refine ⟨(noteBlock m).toList ++ u, v, ?_⟩
      rw [show (walk (m :: ms)).text = noteBlock m ++ (walk ms).text from rfl, toList_append,
        huv, List.append_assoc]

theorem make_document_infix (p e : String) (notes : List Note) (n : Note) (h : n ∈ notes) :
    ∃ u v, (make_document p e notes).toList = u ++ ((noteBlock n).toList ++ v) := by
  obtain ⟨u, v, huv⟩ := walk_text_infix notes n h
  refine ⟨(p ++ (if e = "" then "" else "\n\n# ADDITIONAL RULES\n\n" ++ e)
    ++ "\n\n---\n\n").toList ++ u, v ++ (tocSection notes).toList, ?_⟩
  have hdoc : (make_document p e notes).toList =
      ((p ++ (if e = "" then "" else "\n\n# ADDITIONAL RULES\n\n" ++ e) ++ "\n\n---\n\n")
        ++ (walk notes).text ++ tocSection notes).toList := rfl
  rw [hdoc, toList_append, toList_append, huv]
  simp only [List.append_assoc]

theorem count_beginL_blocks (q : String) (notes : List Note)
    (hc : ∀ m ∈ notes, beginL q ∉ splitLines m.content.toList) :
    List.count (beginL q) (notes.flatMap blockLines) =
      List.count q (notes.map Note.relPath) := by
  induction notes with
  | nil => simp
  | cons n ns ih =>
    rw [List.flatMap_cons, List.count_append, List.map_cons, List.count_cons,
      ih (fun m hm => hc m (List.mem_cons_of_mem n hm))]
    have h0 : List.count (beginL q) (splitLines n.content.toList) = 0 :=
      List.count_eq_zero.mpr (hc n (List.mem_cons_self n ns))
    rw [show blockLines n = [beginL n.relPath, []] ++ splitLines n.content.toList
      ++ [[], endL n.relPath, []] from rfl, List.count_append, List.count_append, h0]
    simp only [List.count_cons, List.count_nil, beq_iff_eq]
    by_cases hq : n.relPath = q
    · simp [hq, (beginL_ne_nil q).symm, endL_ne_beginL q q, Nat.add_comm]
    · simp [hq, beginL_inj, (beginL_ne_nil q).symm, endL_ne_beginL n.relPath q]

theorem count_endL_blocks (q : String) (notes : List Note)
    (hc : ∀ m ∈ notes, endL q ∉ splitLines m.content.toList) :
    List.count (endL q) (notes.flatMap blockLines) =
      List.count q (notes.map Note.relPath) := by
  induction notes with
  | nil => simp
  | cons n ns ih =>
    rw [List.flatMap_cons, List.count_append, List.map_cons, List.count_cons,
      ih (fun m hm => hc m (List.mem_cons_of_mem n hm))]
    have h0 : List.count (endL q) (splitLines n.content.toList) = 0 :=
      List.count_eq_zero.mpr (hc n (List.mem_cons_self n ns))
    rw [show blockLines n = [beginL n.relPath, []] ++ splitLines n.content.toList
      ++ [[], endL n.relPath, []] from rfl, List.count_append, List.count_append, h0]
    simp only [List.count_cons, List.count_nil, beq_iff_eq]
    by_cases hq : n.relPath = q
    · simp [hq, (endL_ne_nil q).symm, beginL_ne_endL q q, Nat.add_comm]
    · simp [hq, endL_inj, (endL_ne_nil q).symm, beginL_ne_endL n.relPath q]

theorem count_adHead_blocks (notes : List Note)
    (hc : ∀ m ∈ notes, adHeadL ∉ splitLines m.content.toList) :
    List.count adHeadL (notes.flatMap blockLines) = 0 := by
  refine List.count_eq_zero.mpr (fun hm => ?_)
  obtain ⟨m, hmem, hline⟩ := List.mem_flatMap.mp hm
  rw [show blockLines m = [beginL m.relPath, []] ++ splitLines m.content.toList
    ++ [[], endL m.relPath, []] from rfl] at hline
  rcases List.mem_append.mp hline with h1 | h1
  · rcases List.mem_append.mp h1 with h2 | h2
    · rcases List.mem_cons.mp h2 with h3 | h3
      · exact (beginL_ne_adHead m.relPath) h3.symm
      · rcases List.mem_cons.mp h3 with h4 | h4
        · exact absurd h4.symm (by decide)
        · cases h4
    · exact hc m hmem h2
  · rcases List.mem_cons.mp h1 with h3 | h3
    · exact absurd h3.symm (by decide)
    · rcases List.mem_cons.mp h3 with h4 | h4
      · exact (endL_ne_adHead m.relPath) h4.symm
      · rcases List.mem_cons.mp h4 with h5 | h5
        · exact absurd h5.symm (by decide)
        · cases h5

theorem count_bullets_eq_zero (m : List Char) (es : List String)
    (h : ∀ s : String, m ≠ bulletLine s) :
    List.count m (es.map bulletLine) = 0 := by
  refine List.count_eq_zero.mpr (fun hm => ?_)
  obtain ⟨s, _, hs⟩ := List.mem_map.mp hm
  exact h s hs.symm

theorem count_doc_beginL (p e : String) (notes : List Note) (q : String)
    (hrel : ∀ m ∈ notes, '\n' ∉ m.relPath.toList)
    (hp : beginL q ∉ splitLines p.toList)
    (he : beginL q ∉ splitLines e.toList)
    (hc : ∀ m ∈ notes, beginL q ∉ splitLines m.content.toList) :
    countLines (beginL q) (make_document p e notes) =
      List.count q (notes.map Note.relPath) := by
  rw [countLines, make_document_lines p e notes hrel, List.count_append, List.count_append,
    List.count_append, List.count_append, List.count_append, List.count_append,
    count_beginL_blocks q notes hc, List.count_eq_zero.mpr hp]
  have hif : List.count (beginL q)
      (if e = "" then [] else [[], adHeadL, []] ++ splitLines e.toList) = 0 := by
    by_cases hee : e = ""
    · simp [hee]
    · rw [if_neg hee, List.count_append, List.count_eq_zero.mpr he]
      simp [List.count_cons, beq_iff_eq, beginL_ne_nil q, (beginL_ne_nil q).symm, adHead_ne_beginL q, (adHead_ne_beginL q).symm]
  have hdash : List.count (beginL q) ([[], dashL, []] : List (List Char)) = 0 := by
    simp [List.count_cons, beq_iff_eq, beginL_ne_nil q, (beginL_ne_nil q).symm, dash_ne_beginL q, (dash_ne_beginL q).symm]
  have hbt : List.count (beginL q) ([[], [], btocL, []] : List (List Char)) = 0 := by
    simp [List.count_cons, beq_iff_eq, beginL_ne_nil q, (beginL_ne_nil q).symm, btoc_ne_beginL q, (btoc_ne_beginL q).symm]
  have hbul : List.count (beginL q) ((tocEntries notes).map bulletLine) = 0 :=
    count_bullets_eq_zero _ _ (fun s => (bullet_ne_beginL s q).symm)
  have het : List.count (beginL q) ([[], [], etocL, [], []] : List (List Char)) = 0 := by
    simp [List.count_cons, beq_iff_eq, beginL_ne_nil q, (beginL_ne_nil q).symm, etoc_ne_beginL q, (etoc_ne_beginL q).symm]
  rw [hif, hdash, hbt, hbul, het]
  simp

theorem count_doc_endL (p e : String) (notes : List Note) (q : String)
    (hrel : ∀ m ∈ notes, '\n' ∉ m.relPath.toList)
    (hp : endL q ∉ splitLines p.toList)
    (he : endL q ∉ splitLines e.toList)
    (hc : ∀ m ∈ notes, endL q ∉ splitLines m.content.toList) :
    countLines (endL q) (make_document p e notes) =
      List.count q (notes.map Note.relPath) := by
  rw [countLines, make_document_lines p e notes hrel, List.count_append, List.count_append,
    List.count_append, List.count_append, List.count_append, List.count_append,
    count_endL_blocks q notes hc, List.count_eq_zero.mpr hp]
  have hif : List.count (endL q)
      (if e = "" then [] else [[], adHeadL, []] ++ splitLines e.toList) = 0 := by
    by_cases hee : e = ""
    · simp [hee]
    · rw [if_neg hee, List.count_append, List.count_eq_zero.mpr he]
      simp [List.count_cons, beq_iff_eq, endL_ne_nil q, (endL_ne_nil q).symm, adHead_ne_endL q, (adHead_ne_endL q).symm]
  have hdash : List.count (endL q) ([[], dashL, []] : List (List Char)) = 0 := by
    simp [List.count_cons, beq_iff_eq, endL_ne_nil q, (endL_ne_nil q).symm, dash_ne_endL q, (dash_ne_endL q).symm]
  have hbt : List.count (endL q) ([[], [], btocL, []] : List (List Char)) = 0 := by
    simp [List.count_cons, beq_iff_eq, endL_ne_nil q, (endL_ne_nil q).symm, btoc_ne_endL q, (btoc_ne_endL q).symm]
  have hbul : List.count (endL q) ((tocEntries notes).map bulletLine) = 0 :=
    count_bullets_eq_zero _ _ (fun s => (bullet_ne_endL s q).symm)
  have het : List.count (endL q) ([[], [], etocL, [], []] : List (List Char)) = 0 := by
    simp [List.count_cons, beq_iff_eq, endL_ne_nil q, (endL_ne_nil q).symm, etoc_ne_endL q, (etoc_ne_endL q).symm]
  rw [hif, hdash, hbt, hbul, het]
  simp

theorem count_doc_adHead (p e : String) (notes : List Note)
    (hrel : ∀ m ∈ notes, '\n' ∉ m.relPath.toList)
    (hp : adHeadL ∉ splitLines p.toList)
    (he : adHeadL ∉ splitLines e.toList)
    (hc : ∀ m ∈ notes, adHeadL ∉ splitLines m.content.toList) :
    countLines adHeadL (make_document p e notes) = (if e = "" then 0 else 1) := by
  rw [countLines, make_document_lines p e notes hrel, List.count_append, List.count_append,
    List.count_append, List.count_append, List.count_append, List.count_append,
    count_adHead_blocks notes hc, List.count_eq_zero.mpr hp]
  have hif : List.count adHeadL
      (if e = "" then [] else [[], adHeadL, []] ++ splitLines e.toList) =
      (if e = "" then 0 else 1) := by
    by_cases hee : e = ""
    · simp [hee]
    · rw [if_neg hee, if_neg hee, List.count_append, List.count_eq_zero.mpr he]
      simp [List.count_cons, beq_iff_eq, (show adHeadL ≠ [] from by decide),
        (show adHeadL ≠ [] from by decide).symm]
  have hdash : List.count adHeadL ([[], dashL, []] : List (List Char)) = 0 := by
    simp [List.count_cons, beq_iff_eq, (show adHeadL ≠ [] from by decide),
      (show adHeadL ≠ [] from by decide).symm, (show dashL ≠ adHeadL from by decide),
      (show dashL ≠ adHeadL from by decide).symm]
  have hbt : List.count adHeadL ([[], [], btocL, []] : List (List Char)) = 0 := by
    simp [List.count_cons, beq_iff_eq, (show adHeadL ≠ [] from by decide),
      (show adHeadL ≠ [] from by decide).symm, (show btocL ≠ adHeadL from by decide),
      (show btocL ≠ adHeadL from by decide).symm]
  have hbul : List.count adHeadL ((tocEntries notes).map bulletLine) = 0 :=
    count_bullets_eq_zero _ _ (fun s => (bullet_ne_adHead s).symm)
  have het : List.count adHeadL ([[], [], etocL, [], []] : List (List Char)) = 0 := by
    simp [List.count_cons, beq_iff_eq, (show adHeadL ≠ [] from by decide),
      (show adHeadL ≠ [] from by decide).symm, (show etocL ≠ adHeadL from by decide),
      (show etocL ≠ adHeadL from by decide).symm]
  rw [hif, hdash, hbt, hbul, het]
  by_cases hee : e = "" <;> simp [hee]

theorem make_source_ok (fs : FS) (args : Args) (vault src : String)
    (hv : resolve_vault fs args.vault = Except.ok vault)
    (hsrc : resolve_source args = some src) :
    make_source fs args = RunResult.mk 0
      (some (src,
        make_document (effPreamble fs args) (effExtra fs args) (fs.rglob vault)))
      ([Msg.converting vault src,
        Msg.estWordCount (estimatedCount fs args vault)]
        ++ (if WORD_LIMIT < estimatedCount fs args vault then [Msg.truncation]
            else [Msg.percent (estimatedCount fs args vault)])) := by
  unfold make_source
  rw [hv, hsrc]

theorem make_source_src_err (fs : FS) (args : Args) (vault : String)
    (hv : resolve_vault fs args.vault = Except.ok vault)
    (hsrc : resolve_source args = none) :
    make_source fs args = RunResult.mk 1 none [] := by
  unfold make_source
  rw [hv, hsrc]

theorem make_source_err (fs : FS) (args : Args) (m : Msg)
    (hv : resolve_vault fs args.vault = Except.error m) :
    make_source fs args = RunResult.mk 1 none [m] := by
  unfold make_source
  rw [hv]

/-- Claim C1: for every run that completes (the vault resolved and the output
path computed), the printed estimated word count equals the whitespace-token
count of the concatenation of the effective preamble and the effective
supplement, plus the sum over every discovered note of its body's token
count, plus 7 times the number of discovered notes. -/
theorem estimated_word_count_formula (fs : FS) (args : Args) (vault src : String)
    (hv : resolve_vault fs args.vault = Except.ok vault)
    (hsrc : resolve_source args = some src) :
    Msg.estWordCount (pyWordCount (effPreamble fs args ++ effExtra fs args)
        + ((fs.rglob vault).map (fun n => pyWordCount n.content)).sum
        + 7 * (fs.rglob vault).length) ∈ (make_source fs args).printed := by
  rw [make_source_ok fs args vault src hv hsrc]
  have hew : estimatedCount fs args vault =
      pyWordCount (effPreamble fs args ++ effExtra fs args)
        + ((fs.rglob vault).map (fun n => pyWordCount n.content)).sum
        + 7 * (fs.rglob vault).length := by
    rw [estimatedCount, walk_count, walk_toc, List.length_map, Nat.mul_comm]
  rw [← hew]
  simp

/-- Witness for C1: a vault of one two-word note with a one-word preamble
override; the printed estimate is 1 + 2 + 7 = 10. -/
theorem estimated_word_count_formula_witness :
    Msg.estWordCount 10 ∈ (make_source (FS.mk ["v"] []
      (fun _ => [Note.mk ("a.md") ("hello world")]))
      (Args.mk ("v") (some ("out.md")) (some ("P")) none)).printed :=
  estimated_word_count_formula (FS.mk ["v"] []
    (fun _ => [Note.mk ("a.md") ("hello world")]))
    (Args.mk ("v") (some ("out.md")) (some ("P")) none) ("v") ("out.md") rfl rfl

/-- Claim C2 (amended): the table of contents has exactly one bullet per
discovered note (its entry list is a permutation of the discovered relative
paths, with equal length), the entries are sorted the way `sorted` orders the
collected `Path` objects — lexicographically by the component lists of the
relative-path strings, components compared as strings — the entry list is
the same for any traversal order of the same notes, and the document ends
with the rendered table-of-contents section. The component-list order is the
amendment: pathlib does not compare the raw path strings, and the two orders
differ as soon as one entry descends into a directory (see the
counterexample). -/
theorem toc_sorted_by_parts (notes notes' : List Note)
    (hperm : (notes'.map Note.relPath).Perm (notes.map Note.relPath)) :
    (tocEntries notes).Perm (notes.map Note.relPath) ∧
    (tocEntries notes).length = notes.length ∧
    List.Sorted (fun a b : String => pathParts a ≤ pathParts b) (tocEntries notes) ∧
    tocEntries notes' = tocEntries notes ∧
    (∀ p e, ∃ u, (make_document p e notes).toList = u ++ (tocSection notes).toList) := by
  have hperm₁ : (tocEntries notes).Perm (notes.map Note.relPath) := by
    rw [tocEntries, walk_toc]
    exact List.perm_insertionSort pathLe _
  have hperm₂ : (tocEntries notes').Perm (notes'.map Note.relPath) := by
    rw [tocEntries, walk_toc]
    exact List.perm_insertionSort pathLe _
  have hsorted : ∀ ms : List Note, List.Sorted pathLe (tocEntries ms) := fun ms =>
    @List.sorted_insertionSort String pathLe _ ⟨pathLe_total⟩ ⟨pathLe_trans⟩ (walk ms).toc
  refine ⟨hperm₁, hperm₁.length_eq.trans (List.length_map _ _), ?_, ?_, ?_⟩
  · exact (hsorted notes).imp (fun h => (pathLe_iff _ _).mp h)
  · exact @List.eq_of_perm_of_sorted String pathLe ⟨pathLe_antisymm⟩ _ _
      (hperm₂.trans (hperm.trans hperm₁.symm)) (hsorted notes') (hsorted notes)
  · intro p e
    refine ⟨(p ++ (if e = "" then "" else "\n\n# ADDITIONAL RULES\n\n" ++ e) ++ "\n\n---\n\n"
      ++ (walk notes).text).toList, ?_⟩
    rw [show make_document p e notes =
      (p ++ (if e = "" then "" else "\n\n# ADDITIONAL RULES\n\n" ++ e) ++ "\n\n---\n\n"
        ++ (walk notes).text) ++ tocSection notes from rfl, toList_append]

/-- Counterexample for C2 as stated: for discovered notes `a-b.md` and
`a/x.md` the program writes `a/x.md` first, although `a-b.md` precedes
`a/x.md` in plain string order — `sorted` compares `Path` component lists
(`["a", "x.md"]` before `["a-b.md"]`), not the raw path strings. -/
theorem toc_string_order_cex :
    tocEntries [Note.mk ("a-b.md") ("x"), Note.mk ("a/x.md") ("y")] =
      ["a/x.md", "a-b.md"] ∧
    ("a-b.md" : String) ≤ "a/x.md" ∧ ("a-b.md" : String) ≠ "a/x.md" :=
  ⟨by decide, (strLe_iff ("a-b.md") ("a/x.md")).mp (by decide), by decide⟩

/-- Witness for C2 (amended): three notes discovered out of order, one inside
a subdirectory; the entries come out in component order — the subdirectory
path first — independently of the traversal order. -/
theorem toc_sorted_by_parts_witness :
    ((tocEntries [Note.mk ("a-b.md") ("x"), Note.mk ("b.md") ("y"),
        Note.mk ("a/x.md") ("z")]).Perm
      ([Note.mk ("a-b.md") ("x"), Note.mk ("b.md") ("y"),
        Note.mk ("a/x.md") ("z")].map Note.relPath) ∧
      tocEntries [Note.mk ("a/x.md") ("z"), Note.mk ("b.md") ("y"),
        Note.mk ("a-b.md") ("x")] =
        tocEntries [Note.mk ("a-b.md") ("x"), Note.mk ("b.md") ("y"),
          Note.mk ("a/x.md") ("z")]) ∧
    tocEntries [Note.mk ("a-b.md") ("x"), Note.mk ("b.md") ("y"),
      Note.mk ("a/x.md") ("z")] = ["a/x.md", "a-b.md", "b.md"] := by
  have h := toc_sorted_by_parts
    [Note.mk ("a-b.md") ("x"), Note.mk ("b.md") ("y"), Note.mk ("a/x.md") ("z")]
    [Note.mk ("a/x.md") ("z"), Note.mk ("b.md") ("y"), Note.mk ("a-b.md") ("x")]
    (by decide)
  exact ⟨⟨h.1, h.2.2.2.1⟩, by decide⟩

/-- Claim C3: an existing directory is used directly as the vault; otherwise
the directory found by joining the reference under the fixed default root is
used; otherwise the run exits with status 1, prints the "Can't find an
Obsidian vault" message, and writes no output file at all. -/
theorem vault_resolution (fs : FS) (args : Args) :
    (fs.isDir args.vault = true → resolve_vault fs args.vault = Except.ok args.vault) ∧
    (fs.isDir args.vault = false →
      fs.isDir (pathJoin DEFAULT_VAULT_ROOT args.vault) = true →
      resolve_vault fs args.vault =
        Except.ok (pathJoin DEFAULT_VAULT_ROOT args.vault)) ∧
    (fs.isDir args.vault = false →
      fs.isDir (pathJoin DEFAULT_VAULT_ROOT args.vault) = false →
      make_source fs args = RunResult.mk 1 none [Msg.vaultNotFound args.vault] ∧
      Msg.renderText (Msg.vaultNotFound args.vault) =
        some ("Can't find an Obsidian vault named '" ++ args.vault ++ "'")) := by
  refine ⟨fun h => ?_, fun h1 h2 => ?_, fun h1 h2 => ⟨?_, rfl⟩⟩
  · simp [resolve_vault, h]
  · simp [resolve_vault, h1, h2]
  · exact make_source_err fs args _ (by simp [resolve_vault, h1, h2])

/-- Witness for C3: a vault name matching no directory makes the run exit with
status 1, print the not-found message, and write nothing. -/
theorem vault_resolution_witness :
    make_source (FS.mk [] [] (fun _ => [])) (Args.mk ("ghost") none none none) =
      RunResult.mk 1 none [Msg.vaultNotFound ("ghost")] ∧
    Msg.renderText (Msg.vaultNotFound ("ghost")) =
      some ("Can't find an Obsidian vault named 'ghost'") :=
  (vault_resolution (FS.mk [] [] (fun _ => []))
    (Args.mk ("ghost") none none none)).2.2 rfl rfl

/-- Claim C5 (amended): an absent instruction argument stays absent, a string
naming an existing file resolves to that file's contents, and any other string
passes through unchanged; a file's contents (respectively, a literal string
naming no file) become the preamble when they are non-empty — an empty
resolution falls back to the built-in preamble (see C10), which is the one
correction to the claim. -/
theorem instruction_resolution (files : List (String × String)) (s c : String)
    (fs : FS) (args : Args) :
    (get_instructions files none = none) ∧
    (lookupFile files s = some c → get_instructions files (some s) = some c) ∧
    (lookupFile files s = none → get_instructions files (some s) = some s) ∧
    (fs.files = files → args.instructions = some s → lookupFile files s = some c →
      c ≠ "" → effPreamble fs args = c) ∧
    (fs.files = files → args.instructions = some s → lookupFile files s = none →
      s ≠ "" → effPreamble fs args = s) := by
  refine ⟨rfl, fun h => ?_, fun h => ?_, fun hf hi h hc => ?_, fun hf hi h hs => ?_⟩
  · simp [get_instructions, h]
  · simp [get_instructions, h]
  · simp [effPreamble, get_instructions, hf, hi, h, pyOr, hc]
  · simp [effPreamble, get_instructions, hf, hi, h, pyOr, hs]

/-- Counterexample for C5 as stated: `--instructions` names an existing file
whose contents are empty; the file resolves to `""`, yet the preamble written
is the built-in `PREAMBLE`, not the file's contents. -/
theorem instruction_resolution_cex :
    lookupFile [("empty.txt", "")] ("empty.txt") = some "" ∧
    effPreamble (FS.mk ["v"] [("empty.txt", "")] (fun _ => []))
      (Args.mk ("v") none (some ("empty.txt")) none) = PREAMBLE ∧
    PREAMBLE ≠ "" :=
  ⟨rfl, rfl, by decide⟩

/-- Witness for C5 (amended): a non-empty file override and a non-empty
literal override both become the preamble. -/
theorem instruction_resolution_witness :
    effPreamble (FS.mk ["v"] [("ins.txt", "Use this.")] (fun _ => []))
      (Args.mk ("v") none (some ("ins.txt")) none) = "Use this." ∧
    effPreamble (FS.mk ["v"] [] (fun _ => []))
      (Args.mk ("v") none (some ("literal text")) none) = "literal text" := by
  constructor
  · exact (instruction_resolution [("ins.txt", "Use this.")] ("ins.txt") ("Use this.")
      (FS.mk ["v"] [("ins.txt", "Use this.")] (fun _ => []))
      (Args.mk ("v") none (some ("ins.txt")) none)).2.2.2.1 rfl rfl rfl (by decide)
  · exact (instruction_resolution [] ("literal text") ("")
      (FS.mk ["v"] [] (fun _ => []))
      (Args.mk ("v") none (some ("literal text")) none)).2.2.2.2 rfl rfl rfl (by decide)

/-- Claim C6 (amended): an explicit `--source` path is used exactly.
Otherwise, when the vault reference's final path component is non-empty
after stripping its suffix, the output path is that component with its
extension replaced by `.md` (so it carries a `.md` extension and depends
only on the final component), a bare name in the current working directory;
when the name is empty (vault references such as `.` or `/`),
`Path.with_suffix(".md")` raises `ValueError` and the run aborts with status
1 and no output path at all. The empty-name abort is the amendment: the
claim as stated asserts a derived output path for every invocation. -/
theorem source_path_resolution (args : Args) :
    (∀ s, args.source = some s → resolve_source args = some s) ∧
    (args.source = none → pyName (pyStem args.vault) ≠ "" →
      resolve_source args = some (pyWithSuffixMd (pyStem args.vault)) ∧
      (∃ base, resolve_source args = some (base ++ ".md")) ∧
      (∀ v' : String, pyName v' = pyName args.vault →
        resolve_source (Args.mk v' args.source args.instructions
          args.additional_instructions) = resolve_source args)) ∧
    (args.source = none → pyName (pyStem args.vault) = "" →
      resolve_source args = none ∧
      (∀ fs vault, resolve_vault fs args.vault = Except.ok vault →
        make_source fs args = RunResult.mk 1 none [])) := by
  refine ⟨fun s hs => by simp [resolve_source, hs],
    fun hn hne => ⟨?_, ?_, ?_⟩, fun hn hemp => ⟨?_, ?_⟩⟩
  · simp [resolve_source, hn, hne]
  · have h1 : resolve_source args = some (pyWithSuffixMd (pyStem args.vault)) := by
      simp [resolve_source, hn, hne]
    exact ⟨String.mk ((pyName (pyStem args.vault)).toList.take
      ((pyName (pyStem args.vault)).length - pySuffixLen (pyName (pyStem args.vault)))),
      by rw [h1]; rfl⟩
  · intro v' hv'
    simp [resolve_source, hn, pyWithSuffixMd, pyStem, hv']
  · simp [resolve_source, hn, hemp]
  · intro fs vault hv
    exact make_source_src_err fs args vault hv (by simp [resolve_source, hn, hemp])

/-- Counterexample for C6 as stated: with no explicit `--source`, a vault
reference of `.` (an existing directory, so vault resolution succeeds) has an
empty name after taking the stem; `with_suffix(".md")` then raises
`ValueError` and the run aborts with status 1, writing and printing nothing —
no output path is derived for it at all. -/
theorem source_path_resolution_cex :
    resolve_source (Args.mk (".") none none none) = none ∧
    make_source (FS.mk ["."] [] (fun _ => [])) (Args.mk (".") none none none) =
      RunResult.mk 1 none [] :=
  ⟨rfl, rfl⟩

/-- Witness for C6 (amended): an explicit source path is used verbatim;
without one, a vault path `/home/u/Vault.old` yields `Vault.md` in the
working directory. -/
theorem source_path_resolution_witness :
    resolve_source (Args.mk ("x") (some ("explicit.md")) none none) =
      some ("explicit.md") ∧
    resolve_source (Args.mk ("/home/u/Vault.old") none none none) = some ("Vault.md") := by
  constructor
  · exact (source_path_resolution (Args.mk ("x") (some ("explicit.md")) none none)).1
      ("explicit.md") rfl
  · have h := ((source_path_resolution
      (Args.mk ("/home/u/Vault.old") none none none)).2.1 rfl (by decide)).1
    rw [h]
    decide

/-- Claim C4 (amended): provided the discovered relative paths are distinct
and newline-free and no preamble, supplement, or note-content line spells a
begin or end marker line for the note in question, the document contains
exactly one begin-marker line and exactly one end-marker line naming that
note's relative path, and it contains the note's block — begin marker, blank
line, raw content verbatim, blank line, end marker — as a contiguous
substring. The provisos are the amendment: a note body may itself spell a
marker line (see the counterexample), which the claim as stated overlooks. -/
theorem note_blocks_in_document (p e : String) (notes : List Note) (n : Note)
    (hmem : n ∈ notes)
    (hnodup : (notes.map Note.relPath).Nodup)
    (hrel : ∀ m ∈ notes, '\n' ∉ m.relPath.toList)
    (hpb : beginL n.relPath ∉ splitLines p.toList)
    (hpe : endL n.relPath ∉ splitLines p.toList)
    (heb : beginL n.relPath ∉ splitLines e.toList)
    (hee : endL n.relPath ∉ splitLines e.toList)
    (hcb : ∀ m ∈ notes, beginL n.relPath ∉ splitLines m.content.toList)
    (hce : ∀ m ∈ notes, endL n.relPath ∉ splitLines m.content.toList) :
    countLines (beginL n.relPath) (make_document p e notes) = 1 ∧
    countLines (endL n.relPath) (make_document p e notes) = 1 ∧
    ∃ u v, (make_document p e notes).toList = u ++ ((noteBlock n).toList ++ v) := by
  have hq : List.count n.relPath (notes.map Note.relPath) = 1 :=
    List.count_eq_one_of_mem hnodup (List.mem_map_of_mem Note.relPath hmem)
  refine ⟨?_, ?_, make_document_infix p e notes n hmem⟩
  · rw [count_doc_beginL p e notes n.relPath hrel hpb heb hcb, hq]
  · rw [count_doc_endL p e notes n.relPath hrel hpe hee hce, hq]

/-- Counterexample for C4 as stated: a note whose body is itself the text
`BEGIN SOURCE: a.md` makes the written document contain that begin-marker
line twice although only one note was discovered, refuting "exactly one
begin-marker line per discovered note". -/
theorem note_blocks_in_document_cex :
    countLines (beginL ("a.md"))
      (((make_source (FS.mk ["v"] [] (fun _ => [Note.mk ("a.md") ("BEGIN SOURCE: a.md")]))
        (Args.mk ("v") (some ("out.md")) (some ("P")) none)).written.getD ("", "")).2) = 2 := by
  decide

/-- Witness for C4 (amended) at a one-note vault with benign content: one
begin marker, one end marker, and the block is a substring of the document. -/
theorem note_blocks_in_document_witness :
    countLines (beginL ("a.md")) (make_document ("P") ("") [Note.mk ("a.md") ("hello")]) = 1 ∧
    countLines (endL ("a.md")) (make_document ("P") ("") [Note.mk ("a.md") ("hello")]) = 1 ∧
    ∃ u v, (make_document ("P") ("") [Note.mk ("a.md") ("hello")]).toList =
      u ++ ((noteBlock (Note.mk ("a.md") ("hello"))).toList ++ v) :=
  note_blocks_in_document ("P") ("") [Note.mk ("a.md") ("hello")]
    (Note.mk ("a.md") ("hello")) (by decide) (by decide) (by decide) (by decide)
    (by decide) (by decide) (by decide) (by decide) (by decide)

/-- Claim C7 (amended): provided no preamble, supplement, or note-content
line is itself the heading text, the document contains the
`# ADDITIONAL RULES` heading line exactly when the effective supplement is
non-empty (then exactly once, followed by a blank line and the supplement
text). The proviso is the amendment: a note body may spell the heading line
(see the counterexample), which the claim as stated overlooks. -/
theorem additional_rules_heading (p e : String) (notes : List Note)
    (hrel : ∀ m ∈ notes, '\n' ∉ m.relPath.toList)
    (hp : adHeadL ∉ splitLines p.toList)
    (he : adHeadL ∉ splitLines e.toList)
    (hc : ∀ m ∈ notes, adHeadL ∉ splitLines m.content.toList) :
    countLines adHeadL (make_document p e notes) = (if e = "" then 0 else 1) ∧
    (e ≠ "" → ∃ u v, (make_document p e notes).toList =
      u ++ ((("# ADDITIONAL RULES\n\n" ++ e) : String).toList ++ v)) := by
  refine ⟨count_doc_adHead p e notes hrel hp he hc, fun hne => ?_⟩
  refine ⟨p.toList ++ ['\n', '\n'],
    ("\n\n---\n\n").toList ++ ((walk notes).text.toList ++ (tocSection notes).toList), ?_⟩
  simp only [make_document, if_neg hne, toList_append, List.append_assoc,
    show ("\n\n# ADDITIONAL RULES\n\n").toList =
      '\n' :: '\n' :: ("# ADDITIONAL RULES\n\n").toList from rfl,
    List.cons_append, List.nil_append]

/-- Counterexample for C7 as stated: with `--additional-instructions` omitted
a note whose body is `# ADDITIONAL RULES` still puts that heading line into
the output document, refuting "no ADDITIONAL RULES heading appears anywhere
in the output". -/
theorem additional_rules_heading_cex :
    countLines adHeadL
      (((make_source (FS.mk ["v"] [] (fun _ => [Note.mk ("a.md") ("# ADDITIONAL RULES")]))
        (Args.mk ("v") (some ("out.md")) (some ("P")) none)).written.getD ("", "")).2) = 1 := by
  decide

/-- Witness for C7 (amended): with a non-empty supplement the heading appears
exactly once; with an empty supplement it does not appear at all. -/
theorem additional_rules_heading_witness :
    countLines adHeadL (make_document ("P") ("More rules") [Note.mk ("a.md") ("hello")]) = 1 ∧
    countLines adHeadL (make_document ("P") ("") [Note.mk ("a.md") ("hello")]) = 0 := by
  constructor
  · have h := (additional_rules_heading ("P") ("More rules") [Note.mk ("a.md") ("hello")]
      (by decide) (by decide) (by decide) (by decide)).1
    rw [h]
    decide
  · have h := (additional_rules_heading ("P") ("") [Note.mk ("a.md") ("hello")]
      (by decide) (by decide) (by decide) (by decide)).1
    rw [h]
    decide

/-- Claim C8: after a completed run the estimated word count is printed with
thousands separators; the truncation warning is printed exactly when the
estimate strictly exceeds the 500,000-word limit, and otherwise — including
at exactly 500,000 — the percentage-of-limit line is printed instead (its
one-decimal numeric rendering comes from IEEE-754 formatting, which the
embedding leaves abstract). -/
theorem word_count_report (fs : FS) (args : Args) (vault src : String)
    (hv : resolve_vault fs args.vault = Except.ok vault)
    (hsrc : resolve_source args = some src) :
    (Msg.truncation ∈ (make_source fs args).printed ↔
      WORD_LIMIT < estimatedCount fs args vault) ∧
    (Msg.percent (estimatedCount fs args vault) ∈ (make_source fs args).printed ↔
      estimatedCount fs args vault ≤ WORD_LIMIT) ∧
    Msg.estWordCount (estimatedCount fs args vault) ∈ (make_source fs args).printed ∧
    Msg.renderText (Msg.estWordCount (estimatedCount fs args vault)) =
      some ("Estimated word count: " ++ commaFormat (estimatedCount fs args vault)) := by
  rw [make_source_ok fs args vault src hv hsrc]
  refine ⟨?_, ?_, ?_, rfl⟩
  · by_cases h : WORD_LIMIT < estimatedCount fs args vault <;> simp [h]
  · by_cases h : WORD_LIMIT < estimatedCount fs args vault
    · simp [h]
    · simp [h]
      omega
  · simp

/-- Witness for C8: a 10-token source prints the percentage line (10 is below
the limit) and renders the count with `commaFormat`; `commaFormat` groups
thousands, e.g. 1234567 renders as 1,234,567. -/
theorem word_count_report_witness :
    Msg.percent 10 ∈ (make_source (FS.mk ["v"] []
      (fun _ => [Note.mk ("a.md") ("hello world")]))
      (Args.mk ("v") (some ("out.md")) (some ("P")) none)).printed ∧
    commaFormat 1234567 = "1,234,567" ∧ commaFormat 500000 = "500,000" := by
  refine ⟨?_, by decide, by decide⟩
  exact (word_count_report (FS.mk ["v"] [] (fun _ => [Note.mk ("a.md") ("hello world")]))
    (Args.mk ("v") (some ("out.md")) (some ("P")) none) ("v") ("out.md")
    rfl rfl).2.1.mpr (by decide)

/-- Claim C9: the run is a deterministic function of its observable inputs —
two runs with the same arguments whose filesystems agree on vault resolution,
on both instruction lookups, and on the traversal of the resolved vault
produce identical results: the same output bytes, the same messages, the same
exit code, whatever else the filesystems contain. -/
theorem run_deterministic (fs₁ fs₂ : FS) (args : Args)
    (hv : resolve_vault fs₁ args.vault = resolve_vault fs₂ args.vault)
    (hins : get_instructions fs₁.files args.instructions =
      get_instructions fs₂.files args.instructions)
    (hadd : get_instructions fs₁.files args.additional_instructions =
      get_instructions fs₂.files args.additional_instructions)
    (hglob : ∀ v, resolve_vault fs₁ args.vault = Except.ok v →
      fs₁.rglob v = fs₂.rglob v) :
    make_source fs₁ args = make_source fs₂ args := by
  unfold make_source
  rw [← hv]
  cases hres : resolve_vault fs₁ args.vault with
  | error m => rfl
  | ok v =>
    have hg := hglob v hres
    cases hs : resolve_source args with
    | none => rfl
    | some s => simp [effPreamble, effExtra, estimatedCount, hins, hadd, hg]

/-- Witness for C9: two filesystems differing in an unread file produce the
same run. -/
theorem run_deterministic_witness :
    make_source (FS.mk ["v"] [("unread.txt", "one")]
      (fun _ => [Note.mk ("a.md") ("hello")]))
      (Args.mk ("v") (some ("out.md")) none none) =
    make_source (FS.mk ["v"] [("unread.txt", "two")]
      (fun _ => [Note.mk ("a.md") ("hello")]))
      (Args.mk ("v") (some ("out.md")) none none) :=
  run_deterministic (FS.mk ["v"] [("unread.txt", "one")]
      (fun _ => [Note.mk ("a.md") ("hello")]))
    (FS.mk ["v"] [("unread.txt", "two")] (fun _ => [Note.mk ("a.md") ("hello")]))
    (Args.mk ("v") (some ("out.md")) none none) rfl rfl rfl (fun _ _ => rfl)

/-- Claim C10: the effective preamble is never empty — an `--instructions`
value resolving to the empty string falls back to the built-in `PREAMBLE` —
and an `--additional-instructions` value resolving to the empty string makes
the whole run identical to one with the option absent (no ADDITIONAL RULES
block, no word-count contribution). -/
theorem empty_instruction_fallback (fs : FS) (args : Args) :
    effPreamble fs args ≠ "" ∧
    (get_instructions fs.files args.instructions = some "" →
      effPreamble fs args = PREAMBLE) ∧
    (get_instructions fs.files args.additional_instructions = some "" →
      make_source fs args = make_source fs
        (Args.mk args.vault args.source args.instructions none)) := by
  refine ⟨?_, fun h => by simp [effPreamble, h, pyOr], fun h => ?_⟩
  · rw [effPreamble]
    cases hg : get_instructions fs.files args.instructions with
    | none => simpa [pyOr] using (by decide : PREAMBLE ≠ "")
    | some s =>
      by_cases hs : s = ""
      · simpa [pyOr, hs] using (by decide : PREAMBLE ≠ "")
      · simp [pyOr, hs]
  · have hex : effExtra fs args = "" := by rw [effExtra, h]; rfl
    have hex' : effExtra fs (Args.mk args.vault args.source args.instructions none) = "" := rfl
    have hpre : effPreamble fs (Args.mk args.vault args.source args.instructions none) =
        effPreamble fs args := rfl
    have hsrc : resolve_source (Args.mk args.vault args.source args.instructions none) =
        resolve_source args := rfl
    unfold make_source
    cases hres : resolve_vault fs args.vault with
    | error m => rfl
    | ok v =>
      have hcnt : estimatedCount fs (Args.mk args.vault args.source args.instructions none) v =
          estimatedCount fs args v := by
        simp only [estimatedCount, hpre, hex, hex']
      rw [hsrc]
      cases hs : resolve_source args with
      | none => rfl
      | some s =>
        rw [hpre, hex, hex']
        simp only [hcnt]

/-- Witness for C10: an empty instructions file yields the built-in preamble,
and an empty additional-instructions file yields the very same run as no
additional instructions at all. -/
theorem empty_instruction_fallback_witness :
    effPreamble (FS.mk ["v"] [("e.txt", "")] (fun _ => [Note.mk ("a.md") ("hi")]))
      (Args.mk ("v") (some ("o")) (some ("e.txt")) (some ("e.txt"))) = PREAMBLE ∧
    make_source (FS.mk ["v"] [("e.txt", "")] (fun _ => [Note.mk ("a.md") ("hi")]))
      (Args.mk ("v") (some ("o")) (some ("e.txt")) (some ("e.txt"))) =
    make_source (FS.mk ["v"] [("e.txt", "")] (fun _ => [Note.mk ("a.md") ("hi")]))
      (Args.mk ("v") (some ("o")) (some ("e.txt")) none) := by
  have h := empty_instruction_fallback
    (FS.mk ["v"] [("e.txt", "")] (fun _ => [Note.mk ("a.md") ("hi")]))
    (Args.mk ("v") (some ("o")) (some ("e.txt")) (some ("e.txt")))
  exact ⟨h.2.1 rfl, h.2.2 rfl⟩

end Obs2nlm
